import Mathlib

/-!
Shallow embedding of the resource pipeline of `coursera/coursera_dl.py`:
the resource selector (`find_resources_to_get`), the path namer
(`format_section`, `format_resource`, `format_combine_number_resource`),
the completion estimator (`is_course_complete` / `total_seconds`), the
syllabus parser (`parse_on_demand_syllabus`), the subtitle part of the
resource locator (`get_on_demand_video_url`), and the download
orchestrator (`download_lectures` / `download_on_demand_class`).

Conventions of the embedding:
* Python dicts that are iterated in insertion order are association lists.
* `re.search(pat, text)` is an abstract parameter `search : String → String → Bool`
  (the selector and the orchestrator only pass patterns through to it).
* Python truthiness of an optional string (`if resource_filter and ...`)
  is made explicit by `pyTruthy`.
* Unix timestamps (`time.time()`, `os.path.getmtime`) are `Int`; one clock
  value `now` stands for the wall clock during a run.
* The filesystem is a list of `(path, mtime)` pairs; new entries are consed
  in front (so a rewrite shadows the old mtime).
* Exceptions escaping the per-video metadata fetch/parse are modelled with
  `Except Unit`.
-/

/-- Python `os.path.join(a, b)` for the joins the code performs
(`os.path.join('', b) = b`, otherwise separator-joined). -/
def pathJoin (a b : String) : String :=
  if a = "" then b else a ++ "/" ++ b

/-- Truthiness of an optional Python string: `None` and `''` are falsy. -/
def pyTruthy : Option String → Bool
  | none => false
  | some s => !(s == "")

/-- Python `str.split('.')` on a character list: the segments between the
dots (always at least one segment). -/
def splitDots : List Char → List (List Char)
  | [] => [[]]
  | c :: cs =>
      match splitDots cs with
      | [] => []
      | s :: ss => if c = '.' then [] :: s :: ss else (c :: s) :: ss

/-- Lines 292–294 of `coursera_dl.py`:
`fmt0 = fmt; if '.' in fmt: fmt = fmt.split('.')[1]` — the canonical
extension of a resource-format key. -/
def canonicalExt (fmt : String) : String :=
  if fmt.data.contains '.' then String.mk ((splitDots fmt.data).getD 1 []) else fmt

/-- Line 301: a resource `(url, title)` is kept unless the resource filter
is truthy, the title is truthy, and the title does not match the filter
(`if resource_filter and r[1] and not re.search(resource_filter, r[1]): continue`). -/
def keepResource (search : String → String → Bool) (rf : Option String) (title : String) : Bool :=
  !(pyTruthy rf && !(title == "") && !(search (rf.getD "") title))

/-- Lines 300–305: the inner loop over the resources of one accepted
format key, tagging each kept resource with the original key `fmt0`. -/
def selectResources (search : String → String → Bool) (rf : Option String) (fmt0 : String) :
    List (String × String) → List (String × String × String)
  | [] => []
  | r :: rest =>
      (if keepResource search rf r.2 then [(fmt0, r.1, r.2)] else [])
        ++ selectResources search rf fmt0 rest

/-- Lines 278–310, `find_resources_to_get`: iterate the lecture's resource
mapping in order; strip a language prefix off the key; skip ignored
extensions; keep a key when its extension is in `file_formats` or `'all'`
is in `file_formats`; inside a kept key apply the title filter. -/
def find_resources_to_get (search : String → String → Bool) :
    List (String × List (String × String)) → List String → Option String → List String →
    List (String × String × String)
  | [], _, _, _ => []
  | (fmt0, resources) :: rest, file_formats, rf, ignored =>
      (let fmt := canonicalExt fmt0
       if fmt ∈ ignored then []
       else if fmt ∈ file_formats ∨ "all" ∈ file_formats then
         selectResources search rf fmt0 resources
       else [])
      ++ find_resources_to_get search rest file_formats rf ignored

/-- Python `'%02d' % n` for the non-negative ordinals the code formats. -/
def format02 (n : Nat) : String :=
  if n < 10 then "0" ++ toString n else toString n

/-- Lines 259–263, `format_section`. -/
def format_section (num : Nat) (sectionSlug class_name : String) (verbose_dirs : Bool) : String :=
  let sec := format02 num ++ "_" ++ sectionSlug
  if verbose_dirs then class_name.toUpper ++ "_" ++ sec else sec

/-- Lines 266–269, `format_resource`. -/
def format_resource (num : Nat) (name title fmt : String) : String :=
  let t := if title == "" then title else "_" ++ title
  format02 num ++ "_" ++ name ++ t ++ "." ++ fmt

/-- Lines 272–275, `format_combine_number_resource`. -/
def format_combine_number_resource (secnum lecnum : Nat) (lecname title fmt : String) : String :=
  let t := if title == "" then title else "_" ++ title
  format02 secnum ++ "_" ++ format02 lecnum ++ "_" ++ lecname ++ t ++ "." ++ fmt

/-- A `datetime.timedelta`, as the normalized triple Python stores. -/
structure Timedelta where
  days : Int
  seconds : Int
  microseconds : Int

/-- Lines 417–424, `total_seconds`. -/
def total_seconds (td : Timedelta) : Int :=
  (td.microseconds + (td.seconds + td.days * 24 * 3600) * 10 ^ 6) / 10 ^ 6

/-- Lines 239–256, `is_course_complete`; `now` stands for `time.time()`. -/
def is_course_complete (now last_update : Int) : Bool :=
  if last_update ≥ 0 then
    (let delta := now - last_update
     let max_delta := total_seconds ⟨30, 0, 0⟩
     if delta > max_delta then true else false)
  else false

/-- One raw lecture item of the syllabus document
(`lecture['slug']`, `lecture['content']['typeName']`,
`lecture['content']['definition']['videoId']`). -/
structure JsonLecture where
  slug : String
  typeName : String
  videoId : String
  deriving DecidableEq

/-- One raw section of the syllabus document. -/
structure JsonSection where
  slug : String
  elements : List JsonLecture
  deriving DecidableEq

/-- One raw module of the syllabus document. -/
structure JsonModule where
  slug : String
  elements : List JsonSection
  deriving DecidableEq

/-- A lecture's resource mapping: format key → ordered `(url, title)` pairs. -/
abbrev LectureMap := List (String × List (String × String))

/-- A parsed section: slug and retained lectures. -/
abbrev SectionT := String × List (String × LectureMap)

/-- A parsed module: slug and retained sections. -/
abbrev ModuleT := String × List SectionT

/-- Lines 212–225: the lecture loop of `parse_on_demand_syllabus`.
`resolve` stands for `get_on_demand_video_url`, which can raise on a
malformed/absent per-video metadata document (`Except.error`); the raised
exception propagates out of the whole parse. A retained lecture's
resolved mapping wraps each url as the singleton `[(value, '')]`, and the
lecture is kept only when the mapping is nonempty. -/
def parseLecturesE (resolve : String → Except Unit (List (String × String))) :
    List JsonLecture → Except Unit (List (String × LectureMap))
  | [] => Except.ok []
  | l :: rest =>
      if l.typeName == "lecture" then
        match resolve l.videoId with
        | Except.error e => Except.error e
        | Except.ok vc =>
            (let lvc : LectureMap := vc.map (fun kv => (kv.1, [(kv.2, "")]))
             match parseLecturesE resolve rest with
             | Except.error e => Except.error e
             | Except.ok tail =>
                 Except.ok ((if lvc.isEmpty then [] else [(l.slug, lvc)]) ++ tail))
      else parseLecturesE resolve rest

/-- Lines 208–228: the section loop; a section is kept only when it
retains at least one lecture. -/
def parseSectionsE (resolve : String → Except Unit (List (String × String))) :
    List JsonSection → Except Unit (List SectionT)
  | [] => Except.ok []
  | s :: rest =>
      match parseLecturesE resolve s.elements with
      | Except.error e => Except.error e
      | Except.ok lectures =>
          match parseSectionsE resolve rest with
          | Except.error e => Except.error e
          | Except.ok tail =>
              Except.ok ((if lectures.isEmpty then [] else [(s.slug, lectures)]) ++ tail)

/-- Lines 204–231: the module loop; a module is kept only when it retains
at least one section. -/
def parseModulesE (resolve : String → Except Unit (List (String × String))) :
    List JsonModule → Except Unit (List ModuleT)
  | [] => Except.ok []
  | m :: rest =>
      match parseSectionsE resolve m.elements with
      | Except.error e => Except.error e
      | Except.ok sections =>
          match parseModulesE resolve rest with
          | Except.error e => Except.error e
          | Except.ok tail =>
              Except.ok ((if sections.isEmpty then [] else [(m.slug, sections)]) ++ tail)

/-- Lines 192–236, `parse_on_demand_syllabus` over an already-decoded
document (`dom['courseMaterial']['elements']`), with the optional final
module reversal (`if modules and reverse: modules.reverse()`). -/
def parse_on_demand_syllabusE (resolve : String → Except Unit (List (String × String)))
    (json_modules : List JsonModule) (reverse : Bool) : Except Unit (List ModuleT) :=
  match parseModulesE resolve json_modules with
  | Except.error e => Except.error e
  | Except.ok modules =>
      Except.ok (if !modules.isEmpty && reverse then modules.reverse else modules)

/-- Python `dict.get` over the association-list model of a dict. -/
def dictGet (d : List (String × String)) (k : String) : Option String :=
  match d.find? (fun kv => kv.1 == k) with
  | some kv => some kv.2
  | none => none

/-- Lines 128–148: the body of the subtitle/transcript loop of
`get_on_demand_video_url` for one node kind, returning the emitted
`(key, url)` entries and the value of the (mutated) `subtitle_language`
variable after the iteration. Note that in the source the reassignment
`subtitle_language = 'en'` on line 142 is unconditional — it is not
guarded by the preceding `if` on line 137. `absolutize` stands for
`make_coursera_absolute_url` (defined outside this file's source). -/
def processSubtitleNode (subtitle_language : String)
    (subtitles : Option (List (String × String))) (ext : String)
    (absolutize : String → String) : List (String × String) × String :=
  match subtitles with
  | none => ([], subtitle_language)
  | some subs =>
      if subtitle_language == "all" then
        (subs.map (fun kv => (kv.1 ++ "." ++ ext, absolutize kv.2)), subtitle_language)
      else
        (let lang2 := "en"
         match dictGet subs lang2 with
         | some u => ([(lang2 ++ "." ++ ext, absolutize u)], lang2)
         | none => ([], lang2))

/-- Lines 124–150: the loop over the two subtitle node kinds
(`('subtitles', 'srt'), ('subtitlesTxt', 'txt')`), threading the mutated
`subtitle_language` from the first iteration into the second, and
accumulating the emitted `video_content` entries (beyond the `mp4` key). -/
def gatherSubtitles (subtitle_language : String)
    (srtSubs txtSubs : Option (List (String × String)))
    (absolutize : String → String) : List (String × String) :=
  let r1 := processSubtitleNode subtitle_language srtSubs "srt" absolutize
  let r2 := processSubtitleNode r1.2 txtSubs "txt" absolutize
  r1.1 ++ r2.1

/-- An observable filesystem/downloader action of the orchestrator.
`skipExisting` records the consulted modification time of the file that
made the orchestrator skip the write (line 385). -/
inductive Event where
  | mkdir (dir : String)
  | download (url path : String) (resume : Bool)
  | touch (path : String)
  | skipExisting (path : String) (mtime : Int)
  deriving DecidableEq

/-- `os.path.exists` over the filesystem model. -/
def fsExists (fs : List (String × Int)) (p : String) : Bool :=
  fs.any (fun e => e.1 == p)

/-- `os.path.getmtime` over the filesystem model (only consulted on
paths that exist; `0` on a missing path). -/
def fsMtime (fs : List (String × Int)) (p : String) : Int :=
  match fs.find? (fun e => e.1 == p) with
  | some e => e.2
  | none => 0

/-- The state threaded through `download_lectures`: the filesystem, the
`last_update` accumulator (line 337) and the trace of performed actions. -/
structure OState where
  fs : List (String × Int)
  last_update : Int
  trace : List Event
  deriving DecidableEq

/-- The options of `download_lectures` that the claims exercise
(playlist generation and hooks — lines 387–407 — touch neither
`last_update`, nor resource writes, nor section-directory creation, and
are outside this model). -/
structure Cfg where
  file_formats : List String
  ignored_formats : List String
  overwrite : Bool
  skip_download : Bool
  resume : Bool
  section_filter : Option String
  lecture_filter : Option String
  resource_filter : Option String
  verbose_dirs : Bool
  combined_section_lectures_nums : Bool
  search : String → String → Bool

/-- `if flt and not re.search(flt, text)` — the skip condition of the
section filter (line 340) and the lecture filter (line 348). -/
def filterSkips (search : String → String → Bool) (flt : Option String) (text : String) : Bool :=
  pyTruthy flt && !(search (flt.getD "") text)

/-- Lines 365–372: the local filename of one selected resource
`t = (fmt, url, title)`. -/
def targetPath (combined : Bool) (sec : String) (secnum lecnum : Nat) (lecname : String)
    (t : String × String × String) : String :=
  if combined then
    pathJoin sec (format_combine_number_resource (secnum + 1) (lecnum + 1) lecname t.2.2 t.1)
  else
    pathJoin sec (format_resource (lecnum + 1) lecname t.2.2 t.1)

/-- Lines 363–385: processing of one selected resource. Write (delegate to
the downloader, or touch a zero-byte file under `--skip-download`) when
`overwrite or not os.path.exists(lecfn) or resume`, setting `last_update`
to the current time; otherwise skip and fold the existing file's
modification time into `last_update` with `max`. -/
def processTarget (cfg : Cfg) (now : Int) (sec : String) (secnum lecnum : Nat) (lecname : String)
    (st : OState) (t : String × String × String) : OState :=
  let lecfn := targetPath cfg.combined_section_lectures_nums sec secnum lecnum lecname t
  if cfg.overwrite || !(fsExists st.fs lecfn) || cfg.resume then
    if !cfg.skip_download then
      { fs := (lecfn, now) :: st.fs, last_update := now,
        trace := st.trace ++ [Event.download t.2.1 lecfn cfg.resume] }
    else
      { fs := (lecfn, now) :: st.fs, last_update := now,
        trace := st.trace ++ [Event.touch lecfn] }
  else
    { st with last_update := max st.last_update (fsMtime st.fs lecfn),
              trace := st.trace ++ [Event.skipExisting lecfn (fsMtime st.fs lecfn)] }

/-- Lines 347–385: processing of one lecture — lecture filter, lazy
directory creation (`if not os.path.exists(sec): mkdir_p(sec)`), resource
selection, then the write loop over the selected resources. -/
def processLecture (cfg : Cfg) (now : Int) (sec : String) (secnum lecnum : Nat)
    (st : OState) (lec : String × LectureMap) : OState :=
  if filterSkips cfg.search cfg.lecture_filter lec.1 then st
  else
    let st1 := if fsExists st.fs sec then st
               else { st with fs := (sec, now) :: st.fs, trace := st.trace ++ [Event.mkdir sec] }
    let rs := find_resources_to_get cfg.search lec.2 cfg.file_formats cfg.resource_filter
                cfg.ignored_formats
    rs.foldl (fun s2 t => processTarget cfg now sec secnum lecnum lec.1 s2 t) st1

/-- The `enumerate(lectures)` loop of lines 347–385. -/
def processLectures (cfg : Cfg) (now : Int) (sec : String) (secnum : Nat) :
    Nat → OState → List (String × LectureMap) → OState
  | _, st, [] => st
  | lecnum, st, l :: rest =>
      processLectures cfg now sec secnum (lecnum + 1)
        (processLecture cfg now sec secnum lecnum st l) rest

/-- Lines 345–346: the on-disk directory of a section
(`os.path.join(path, class_name, format_section(secnum + 1, ...))`). -/
def sectionDir (cfg : Cfg) (path class_name : String) (secnum : Nat) (slug : String) : String :=
  pathJoin (pathJoin path class_name) (format_section (secnum + 1) slug class_name cfg.verbose_dirs)

/-- Lines 339–385: processing of one section — section filter, then the
lecture loop (the playlist/hook epilogue is outside the model, see `Cfg`). -/
def processSection (cfg : Cfg) (now : Int) (path class_name : String)
    (st : OState) (secnum : Nat) (s : SectionT) : OState :=
  if filterSkips cfg.search cfg.section_filter s.1 then st
  else processLectures cfg now (sectionDir cfg path class_name secnum s.1) secnum 0 st s.2

/-- The `enumerate(sections)` loop of lines 339–385. -/
def processSections (cfg : Cfg) (now : Int) (path class_name : String) :
    Nat → OState → List SectionT → OState
  | _, st, [] => st
  | secnum, st, s :: rest =>
      processSections cfg now path class_name (secnum + 1)
        (processSection cfg now path class_name st secnum s) rest

/-- Lines 313–414, `download_lectures`: run the section loop starting from
`last_update = -1`, then judge completion with `is_course_complete`. -/
def download_lectures (cfg : Cfg) (class_name : String) (sections : List SectionT)
    (path : String) (now : Int) (fs0 : List (String × Int)) : OState × Bool :=
  let st := processSections cfg now path class_name 0 ⟨fs0, -1, []⟩ sections
  (st, is_course_complete now st.last_update)

/-- Lines 770–795: the module loop of `download_on_demand_class` —
`module_name = '%02d_%s' % (idx + 1, module[0])`, one `download_lectures`
call per module with `path = os.path.join(args.path, class_name)`,
and `completed = completed and result`. The accumulator carries the
completion flag, the evolving filesystem, and each module's trace. -/
def downloadModules (cfg : Cfg) (now : Int) (path class_name : String) :
    Nat → Bool × List (String × Int) × List (List Event) → List ModuleT →
    Bool × List (String × Int) × List (List Event)
  | _, acc, [] => acc
  | idx, acc, m :: rest =>
      let module_name := format02 (idx + 1) ++ "_" ++ m.1
      let r := download_lectures cfg module_name m.2 (pathJoin path class_name) now acc.2.1
      downloadModules cfg now path class_name (idx + 1)
        (acc.1 && r.2, r.1.fs, acc.2.2 ++ [r.1.trace]) rest

/-- Lines 743–797, `download_on_demand_class`, over an already parsed
module tree (authentication and the syllabus fetch are external
collaborators): returns the completion boolean, the final filesystem and
the per-module action traces. -/
def download_on_demand_class (cfg : Cfg) (now : Int) (path class_name : String)
    (modules : List ModuleT) (fs0 : List (String × Int)) :
    Bool × List (String × Int) × List (List Event) :=
  downloadModules cfg now path class_name 0 (true, fs0, []) modules

/-- The per-target "last activity" value an event contributes: the write
time for a performed write, the observed modification time for a skipped
target. -/
def actStep (now : Int) (acc : Int) : Event → Int
  | Event.download _ _ _ => max acc now
  | Event.touch _ => max acc now
  | Event.skipExisting _ m => max acc m
  | Event.mkdir _ => acc

/-- The spec's CompletionState reduction: the maximum "last activity"
timestamp over all targets of a trace, starting from the sentinel `-1`. -/
def globalMaxActivity (now : Int) (tr : List Event) : Int :=
  tr.foldl (actStep now) (-1)

/-! ## Helper lemmas: resource selector -/

/-- `keepResource` in the spec's words: a resource survives the title
filter exactly when "filter supplied (truthy), title non-empty, title does
not match" fails. -/
lemma keepResource_iff (search : String → String → Bool) (rf : Option String) (title : String) :
    keepResource search rf title = true ↔
      (pyTruthy rf = true → title ≠ "" → search (rf.getD "") title = true) := by
  cases hpt : pyTruthy rf <;> cases het : (title == "") <;>
    cases hs : search (rf.getD "") title <;>
    simp_all [keepResource]

/-- Membership characterization of the per-key resource loop. -/
lemma selectResources_mem (search : String → String → Bool) (rf : Option String)
    (fmt0 : String) (rs : List (String × String)) (f u ti : String) :
    (f, u, ti) ∈ selectResources search rf fmt0 rs ↔
      f = fmt0 ∧ (u, ti) ∈ rs ∧ keepResource search rf ti = true := by
  induction rs with
  | nil => simp [selectResources]
  | cons r rest ih =>
    obtain ⟨ru, rt⟩ := r
    by_cases hk : keepResource search rf rt = true
    · simp only [selectResources, hk, if_true, List.mem_append, List.mem_singleton,
        List.mem_cons, Prod.mk.injEq, ih]
      constructor
      · rintro ((⟨rfl, rfl, rfl⟩ | h) | ⟨rfl, hm, hk2⟩)
        · exact ⟨rfl, Or.inl ⟨rfl, rfl⟩, hk⟩
        · exact absurd h (List.not_mem_nil _)
        · exact ⟨rfl, Or.inr hm, hk2⟩
      · rintro ⟨rfl, ⟨rfl, rfl⟩ | hm, hk2⟩
        · exact Or.inl (Or.inl ⟨rfl, rfl, rfl⟩)
        · exact Or.inr ⟨rfl, hm, hk2⟩
    · simp only [selectResources, hk, if_false, List.nil_append, ih, List.mem_cons,
        Prod.mk.injEq, Bool.false_eq_true]
      constructor
      · rintro ⟨rfl, hm, hk2⟩
        exact ⟨rfl, Or.inr hm, hk2⟩
      · rintro ⟨rfl, ⟨rfl, rfl⟩ | hm, hk2⟩
        · exact absurd hk2 hk
        · exact ⟨rfl, hm, hk2⟩

/-! ## Claim C1 -/

/-- Claim C1, counterexample to the claim as stated: with accepted formats
`F = ["all", "mp4"]` and resource key `"srt"`, the selector includes the
key's resource although `"srt" ∉ F` and `F` is not the singleton set
`{"all"}` — the code tests `'all' in file_formats`, not `F = {"all"}`. -/
theorem C1_counterexample :
    ("srt", "u", "") ∈ find_resources_to_get (fun _ _ => true)
        [("srt", [("u", "")])] ["all", "mp4"] none [] ∧
    ¬ ("srt" ∈ (["all", "mp4"] : List String)) ∧
    ¬ (∀ x ∈ (["all", "mp4"] : List String), x = "all") := by decide

/-- Claim C1 (amended: `"all" ∈ F` in place of `F = {"all"}`): a triple
`(key, url, title)` is in the selector's output iff the lecture mapping
carries it under `key`, the key's canonical extension is not ignored and
is accepted (`e ∈ F` or `"all" ∈ F`), and the resource is not dropped by
the title filter (dropped only when the filter is supplied and truthy,
the title is non-empty, and the title does not match). -/
theorem C1_selector_membership (search : String → String → Bool)
    (lecture : List (String × List (String × String))) (F ign : List String)
    (rf : Option String) (fmt0 url title : String) :
    (fmt0, url, title) ∈ find_resources_to_get search lecture F rf ign ↔
      ∃ resources, (fmt0, resources) ∈ lecture ∧ (url, title) ∈ resources ∧
        canonicalExt fmt0 ∉ ign ∧ (canonicalExt fmt0 ∈ F ∨ "all" ∈ F) ∧
        (pyTruthy rf = true → title ≠ "" → search (rf.getD "") title = true) := by
  induction lecture with
  | nil => simp [find_resources_to_get]
  | cons kv rest ih =>
    obtain ⟨k, rs⟩ := kv
    by_cases hig : canonicalExt k ∈ ign
    · simp only [find_resources_to_get, hig, if_true, List.nil_append, ih, List.mem_cons,
        Prod.mk.injEq]
      constructor
      · rintro ⟨resources, hm, rest'⟩
        exact ⟨resources, Or.inr hm, rest'⟩
      · rintro ⟨resources, ⟨rfl, rfl⟩ | hm, h2, h3, h4, h5⟩
        · exact absurd hig h3
        · exact ⟨resources, hm, h2, h3, h4, h5⟩
    · by_cases hacc : canonicalExt k ∈ F ∨ "all" ∈ F
      · simp only [find_resources_to_get, hig, hacc, if_false, if_true, List.mem_append,
          selectResources_mem, keepResource_iff, ih, List.mem_cons, Prod.mk.injEq]
        constructor
        · rintro (⟨rfl, hm, hk⟩ | ⟨resources, hm, rest'⟩)
          · exact ⟨rs, Or.inl ⟨rfl, rfl⟩, hm, hig, hacc, hk⟩
          · exact ⟨resources, Or.inr hm, rest'⟩
        · rintro ⟨resources, ⟨rfl, rfl⟩ | hm, h2, h3, h4, h5⟩
          · exact Or.inl ⟨rfl, h2, h5⟩
          · exact Or.inr ⟨resources, hm, h2, h3, h4, h5⟩
      · simp only [find_resources_to_get, hig, hacc, if_false, List.nil_append, ih,
          List.mem_cons, Prod.mk.injEq]
        constructor
        · rintro ⟨resources, hm, rest'⟩
          exact ⟨resources, Or.inr hm, rest'⟩
        · rintro ⟨resources, ⟨rfl, rfl⟩ | hm, h2, h3, h4, h5⟩
          · exact absurd h4 hacc
          · exact ⟨resources, hm, h2, h3, h4, h5⟩

/-! ## Claim C3 -/

/-- Claim C3: the completion estimator returns complete iff
`lastActivity ≥ 0` and `now − lastActivity` strictly exceeds 30 days
(2 592 000 seconds), and the sentinel `-1` is always incomplete. -/
theorem C3_estimator_characterization (now lastActivity : Int) :
    (is_course_complete now lastActivity = true ↔
      lastActivity ≥ 0 ∧ now - lastActivity > 30 * 24 * 3600) ∧
    is_course_complete now (-1) = false := by
  have ht : total_seconds ⟨30, 0, 0⟩ = 30 * 24 * 3600 := by norm_num [total_seconds]
  constructor
  · unfold is_course_complete
    rcases Decidable.em (lastActivity ≥ 0) with h | h
    · rw [if_pos h]
      rcases Decidable.em (now - lastActivity > total_seconds ⟨30, 0, 0⟩) with h2 | h2
      · rw [if_pos h2]
        exact ⟨fun _ => ⟨h, ht ▸ h2⟩, fun _ => rfl⟩
      · rw [if_neg h2]
        exact ⟨fun hc => absurd hc (by simp), fun hrhs => absurd (ht ▸ hrhs.2) h2⟩
    · rw [if_neg h]
      exact ⟨fun hc => absurd hc (by simp), fun hrhs => absurd hrhs.1 h⟩
  · unfold is_course_complete
    rw [if_neg (by norm_num)]

/-! ## Claim C5 -/

/-- Claim C5 (code bug witness): with requested subtitle language `"de"`
present in the available mapping `{"de": u2, "en": u1}`, the locator still
emits only the English subtitle `en.srt → u1` — line 142's
`subtitle_language = 'en'` is unconditional, so the requested language is
never attempted even when present (contradicting the fallback warning the
code itself prints only when the language is absent). -/
theorem C5_requested_language_ignored :
    gatherSubtitles "de" (some [("de", "u2"), ("en", "u1")]) none (fun u => u)
      = [("en.srt", "u1")] ∧
    dictGet [("de", "u2"), ("en", "u1")] "de" = some "u2" := by decide

/-! ## Claim C6 -/

/-- Claim C6, counterexample to the claim as stated: on the spec's own
example the selector returns both resources, but the default-scheme namer
is applied to the selector's full key `"en.srt"` (the `fmt0` the selector
emits), so the subtitle filename is `03_intro.en.srt`, not the claimed
`03_intro.srt`. -/
theorem C6_counterexample :
    (find_resources_to_get (fun _ _ => true)
        [("mp4", [("http://x/a.mp4", "")]), ("en.srt", [("http://x/a.srt", "")])]
        ["all"] none []).map (fun t => format_resource 3 "intro" t.2.2 t.1)
      = ["03_intro.mp4", "03_intro.en.srt"] ∧
    ("03_intro.en.srt" : String) ≠ "03_intro.srt" := by decide

/-- Claim C6 (amended: the subtitle filename keeps the full resource key,
language prefix included): the selector returns both resources and the
default-scheme namer yields `03_intro.mp4` and `03_intro.en.srt`. -/
theorem C6_example_filenames :
    find_resources_to_get (fun _ _ => true)
        [("mp4", [("http://x/a.mp4", "")]), ("en.srt", [("http://x/a.srt", "")])]
        ["all"] none []
      = [("mp4", "http://x/a.mp4", ""), ("en.srt", "http://x/a.srt", "")] ∧
    (find_resources_to_get (fun _ _ => true)
        [("mp4", [("http://x/a.mp4", "")]), ("en.srt", [("http://x/a.srt", "")])]
        ["all"] none []).map (fun t => format_resource 3 "intro" t.2.2 t.1)
      = ["03_intro.mp4", "03_intro.en.srt"] := by decide

/-! ## Helper lemmas: syllabus parser -/

lemma parseLecturesE_ok (resolve : String → Except Unit (List (String × String)))
    (ls : List JsonLecture) (lecs : List (String × LectureMap))
    (h : parseLecturesE resolve ls = Except.ok lecs) :
    ∀ l ∈ lecs, l.2 ≠ [] ∧ ∀ kv ∈ l.2, ∃ u, kv.2 = [(u, "")] := by
  induction ls generalizing lecs with
  | nil =>
    unfold parseLecturesE at h
    injection h with h
    subst h
    intro l hl
    cases hl
  | cons jl rest ih =>
    unfold parseLecturesE at h
    by_cases ht : (jl.typeName == "lecture") = true
    · rw [if_pos ht] at h
      cases hr : resolve jl.videoId with
      | error e => rw [hr] at h; cases h
      | ok vc =>
        rw [hr] at h
        simp only at h
        cases hrec : parseLecturesE resolve rest with
        | error e => rw [hrec] at h; cases h
        | ok tail =>
          rw [hrec] at h
          simp only at h
          injection h with h
          subst h
          intro l hl
          rcases List.mem_append.mp hl with hl | hl
          · by_cases he : (vc.map (fun kv => (kv.1, [(kv.2, "")]))).isEmpty = true
            · rw [if_pos he] at hl
              cases hl
            · rw [if_neg he] at hl
              rcases List.mem_singleton.mp hl with rfl
              refine ⟨fun hnil => ?_, fun kv hkv => ?_⟩
              · rw [show List.map (fun kv => (kv.1, [(kv.2, "")])) vc = ([] : LectureMap)
                      from hnil] at he
                exact he rfl
              · rcases List.mem_map.mp hkv with ⟨ab, _, rfl⟩
                exact ⟨ab.2, rfl⟩
          · exact ih tail hrec l hl
    · rw [if_neg ht] at h
      exact ih lecs h

lemma parseSectionsE_ok (resolve : String → Except Unit (List (String × String)))
    (ss : List JsonSection) (secs : List SectionT)
    (h : parseSectionsE resolve ss = Except.ok secs) :
    ∀ s ∈ secs, s.2 ≠ [] ∧ ∀ l ∈ s.2, l.2 ≠ [] ∧ ∀ kv ∈ l.2, ∃ u, kv.2 = [(u, "")] := by
  induction ss generalizing secs with
  | nil =>
    unfold parseSectionsE at h
    injection h with h
    subst h
    intro s hs
    cases hs
  | cons js rest ih =>
    unfold parseSectionsE at h
    cases hr : parseLecturesE resolve js.elements with
    | error e => rw [hr] at h; cases h
    | ok lectures =>
      rw [hr] at h
      cases hrec : parseSectionsE resolve rest with
      | error e => rw [hrec] at h; cases h
      | ok tail =>
        rw [hrec] at h
        injection h with h
        subst h
        intro s hs
        rcases List.mem_append.mp hs with hs | hs
        · by_cases he : lectures.isEmpty = true
          · rw [if_pos he] at hs
            cases hs
          · rw [if_neg he] at hs
            rcases List.mem_singleton.mp hs with rfl
            refine ⟨fun hnil => ?_, fun l hl => ?_⟩
            · rw [show lectures = ([] : List (String × LectureMap)) from hnil] at he
              exact he rfl
            · exact parseLecturesE_ok resolve js.elements lectures hr l hl
        · exact ih tail hrec s hs

lemma parseModulesE_ok (resolve : String → Except Unit (List (String × String)))
    (ms : List JsonModule) (mods : List ModuleT)
    (h : parseModulesE resolve ms = Except.ok mods) :
    ∀ m ∈ mods, m.2 ≠ [] ∧ ∀ s ∈ m.2, s.2 ≠ [] ∧ ∀ l ∈ s.2,
      l.2 ≠ [] ∧ ∀ kv ∈ l.2, ∃ u, kv.2 = [(u, "")] := by
  induction ms generalizing mods with
  | nil =>
    unfold parseModulesE at h
    injection h with h
    subst h
    intro m hm
    cases hm
  | cons jm rest ih =>
    unfold parseModulesE at h
    cases hr : parseSectionsE resolve jm.elements with
    | error e => rw [hr] at h; cases h
    | ok sections =>
      rw [hr] at h
      cases hrec : parseModulesE resolve rest with
      | error e => rw [hrec] at h; cases h
      | ok tail =>
        rw [hrec] at h
        injection h with h
        subst h
        intro m hm
        rcases List.mem_append.mp hm with hm | hm
        · by_cases he : sections.isEmpty = true
          · rw [if_pos he] at hm
            cases hm
          · rw [if_neg he] at hm
            rcases List.mem_singleton.mp hm with rfl
            refine ⟨fun hnil => ?_, fun s hs => ?_⟩
            · rw [show sections = ([] : List SectionT) from hnil] at he
              exact he rfl
            · exact parseSectionsE_ok resolve jm.elements sections hr s hs
        · exact ih tail hrec m hm

lemma parse_on_demand_syllabusE_ok (resolve : String → Except Unit (List (String × String)))
    (json : List JsonModule) (rev : Bool) (mods : List ModuleT)
    (h : parse_on_demand_syllabusE resolve json rev = Except.ok mods) :
    ∀ m ∈ mods, m.2 ≠ [] ∧ ∀ s ∈ m.2, s.2 ≠ [] ∧ ∀ l ∈ s.2,
      l.2 ≠ [] ∧ ∀ kv ∈ l.2, ∃ u, kv.2 = [(u, "")] := by
  unfold parse_on_demand_syllabusE at h
  cases hr : parseModulesE resolve json with
  | error e => rw [hr] at h; cases h
  | ok modules =>
    rw [hr] at h
    injection h with h
    subst h
    intro m hm
    have hm' : m ∈ modules := by
      by_cases hc : (!modules.isEmpty && rev) = true
      · rw [if_pos hc] at hm
        exact List.mem_reverse.mp hm
      · rw [if_neg hc] at hm
        exact hm
    exact parseModulesE_ok resolve json modules hr m hm'

lemma parseLecturesE_error (resolve : String → Except Unit (List (String × String)))
    (ls : List JsonLecture)
    (h : ∃ l ∈ ls, l.typeName = "lecture" ∧ resolve l.videoId = Except.error ()) :
    parseLecturesE resolve ls = Except.error () := by
  induction ls with
  | nil => rcases h with ⟨l, hl, _⟩; cases hl
  | cons jl rest ih =>
    rcases h with ⟨l, hl, hty, hres⟩
    rcases List.mem_cons.mp hl with rfl | hl
    · unfold parseLecturesE
      rw [if_pos (by simp [hty]), hres]
    · unfold parseLecturesE
      by_cases ht : (jl.typeName == "lecture") = true
      · rw [if_pos ht]
        cases hr : resolve jl.videoId with
        | error e => rfl
        | ok vc =>
          rw [ih ⟨l, hl, hty, hres⟩]
      · rw [if_neg ht]
        exact ih ⟨l, hl, hty, hres⟩

lemma parseSectionsE_error (resolve : String → Except Unit (List (String × String)))
    (ss : List JsonSection)
    (h : ∃ s ∈ ss, ∃ l ∈ s.elements, l.typeName = "lecture" ∧
           resolve l.videoId = Except.error ()) :
    parseSectionsE resolve ss = Except.error () := by
  induction ss with
  | nil => rcases h with ⟨s, hs, _⟩; cases hs
  | cons js rest ih =>
    rcases h with ⟨s, hs, hwit⟩
    rcases List.mem_cons.mp hs with rfl | hs
    · unfold parseSectionsE
      rw [parseLecturesE_error resolve s.elements hwit]
    · unfold parseSectionsE
      cases hr : parseLecturesE resolve js.elements with
      | error e => rfl
      | ok lectures =>
        rw [ih ⟨s, hs, hwit⟩]

lemma parseModulesE_error (resolve : String → Except Unit (List (String × String)))
    (ms : List JsonModule)
    (h : ∃ m ∈ ms, ∃ s ∈ m.elements, ∃ l ∈ s.elements, l.typeName = "lecture" ∧
           resolve l.videoId = Except.error ()) :
    parseModulesE resolve ms = Except.error () := by
  induction ms with
  | nil => rcases h with ⟨m, hm, _⟩; cases hm
  | cons jm rest ih =>
    rcases h with ⟨m, hm, hwit⟩
    rcases List.mem_cons.mp hm with rfl | hm
    · unfold parseModulesE
      rw [parseSectionsE_error resolve m.elements hwit]
    · unfold parseModulesE
      cases hr : parseSectionsE resolve jm.elements with
      | error e => rfl
      | ok sections =>
        rw [ih ⟨m, hm, hwit⟩]

lemma find_resources_rf_irrelevant (search : String → String → Bool) (lec : LectureMap)
    (F ign : List String) (rf : Option String)
    (hsing : ∀ kv ∈ lec, ∃ u, kv.2 = [(u, "")]) :
    find_resources_to_get search lec F rf ign = find_resources_to_get search lec F none ign := by
  induction lec with
  | nil => rfl
  | cons kv rest ih =>
    obtain ⟨k, rs⟩ := kv
    obtain ⟨u, hu⟩ := hsing (k, rs) (List.mem_cons_self _ _)
    simp only at hu
    subst hu
    have hrest : ∀ kv ∈ rest, ∃ u, kv.2 = [(u, "")] :=
      fun kv hkv => hsing kv (List.mem_cons_of_mem _ hkv)
    simp only [find_resources_to_get, ih hrest]
    congr 1
    have hkeep : ∀ rf' : Option String, keepResource search rf' "" = true := by
      intro rf'
      simp [keepResource]
    simp [selectResources, hkeep]

/-! ## Claim C7 -/

/-- Claim C7: every tree the syllabus parser returns is fully pruned —
every retained lecture has a nonempty resource mapping, every retained
section has at least one lecture, and every retained module has at least
one section. -/
theorem C7_no_empty_nodes (resolve : String → Except Unit (List (String × String)))
    (json : List JsonModule) (rev : Bool) (mods : List ModuleT)
    (h : parse_on_demand_syllabusE resolve json rev = Except.ok mods) :
    ∀ m ∈ mods, m.2 ≠ [] ∧ ∀ s ∈ m.2, s.2 ≠ [] ∧ ∀ l ∈ s.2, l.2 ≠ [] := by
  intro m hm
  have H := parse_on_demand_syllabusE_ok resolve json rev mods h m hm
  exact ⟨H.1, fun s hs => ⟨(H.2 s hs).1, fun l hl => ((H.2 s hs).2 l hl).1⟩⟩

/-- Concrete parser input for the C7 witness. -/
def wit7Resolve : String → Except Unit (List (String × String)) :=
  fun _ => Except.ok [("mp4", "u")]

/-- Concrete syllabus document for the C7 witness. -/
def wit7Json : List JsonModule := [⟨"m1", [⟨"s1", [⟨"l1", "lecture", "v1"⟩]⟩]⟩]

/-- Witness for C7 at a concrete parse: the produced module, section and
lecture lists are nonempty. -/
theorem C7_no_empty_nodes_witness :
    (([("s1", [("l1", [("mp4", [("u", "")])])])] : List SectionT) ≠ []) ∧
    (([("l1", [("mp4", [("u", "")])])] : List (String × LectureMap)) ≠ []) ∧
    (([("mp4", [("u", "")])] : LectureMap) ≠ []) :=
  have H := C7_no_empty_nodes wit7Resolve wit7Json false
    [("m1", [("s1", [("l1", [("mp4", [("u", "")])])])])] rfl
  have h1 := H ("m1", [("s1", [("l1", [("mp4", [("u", "")])])])]) (List.Mem.head _)
  have h2 := h1.2 ("s1", [("l1", [("mp4", [("u", "")])])]) (List.Mem.head _)
  have h3 := h2.2 ("l1", [("mp4", [("u", "")])]) (List.Mem.head _)
  ⟨h1.1, h2.1, h3⟩

/-! ## Claim C9 -/

/-- Claim C9, counterexample to the claim as stated: when the first
lecture's metadata resolution fails, the whole parse returns an error and
the second (healthy) lecture yields nothing — the same document without
the broken lecture parses fine, so the failure is not localized to the
affected lecture. -/
theorem C9_counterexample :
    parse_on_demand_syllabusE
        (fun v => if v == "bad" then Except.error () else Except.ok [("mp4", "u")])
        [⟨"m", [⟨"s", [⟨"l1", "lecture", "bad"⟩, ⟨"l2", "lecture", "good"⟩]⟩]⟩] false
      = Except.error () ∧
    parse_on_demand_syllabusE
        (fun v => if v == "bad" then Except.error () else Except.ok [("mp4", "u")])
        [⟨"m", [⟨"s", [⟨"l2", "lecture", "good"⟩]⟩]⟩] false
      = Except.ok [("m", [("s", [("l2", [("mp4", [("u", "")])])])])] :=
  ⟨rfl, rfl⟩

/-- Claim C9 (amended): a malformed/absent per-video metadata document
aborts the whole course run's resolution — whenever any retained lecture's
resolution raises, the syllabus parse propagates the exception and yields
no tree at all. -/
theorem C9_failure_aborts_run (resolve : String → Except Unit (List (String × String)))
    (json : List JsonModule) (rev : Bool)
    (h : ∃ m ∈ json, ∃ s ∈ m.elements, ∃ l ∈ s.elements,
           l.typeName = "lecture" ∧ resolve l.videoId = Except.error ()) :
    parse_on_demand_syllabusE resolve json rev = Except.error () := by
  unfold parse_on_demand_syllabusE
  rw [parseModulesE_error resolve json h]

/-- Failing resolver for the C9 witness. -/
def wit9Resolve : String → Except Unit (List (String × String)) :=
  fun v => if v == "bad9" then Except.error () else Except.ok [("mp4", "u")]

/-- Concrete syllabus document for the C9 witness. -/
def wit9Json : List JsonModule := [⟨"m0", [⟨"s0", [⟨"l0", "lecture", "bad9"⟩]⟩]⟩]

/-- Witness for C9's amended theorem at a concrete failing document. -/
theorem C9_failure_aborts_run_witness :
    parse_on_demand_syllabusE wit9Resolve wit9Json true = Except.error () :=
  C9_failure_aborts_run wit9Resolve wit9Json true
    ⟨⟨"m0", [⟨"s0", [⟨"l0", "lecture", "bad9"⟩]⟩]⟩, List.Mem.head _,
     ⟨"s0", [⟨"l0", "lecture", "bad9"⟩]⟩, List.Mem.head _,
     ⟨"l0", "lecture", "bad9"⟩, List.Mem.head _, rfl, rfl⟩

/-! ## Claim C10 -/

/-- Claim C10: every resource sequence the parser attaches is the
singleton `[(url, "")]` with empty title, and consequently the selector's
title-filter branch never drops a parser-produced resource: the selector's
output is the same whatever resource filter is configured. -/
theorem C10_parser_singleton_resources (resolve : String → Except Unit (List (String × String)))
    (json : List JsonModule) (rev : Bool) (mods : List ModuleT)
    (h : parse_on_demand_syllabusE resolve json rev = Except.ok mods) :
    ∀ m ∈ mods, ∀ s ∈ m.2, ∀ l ∈ s.2,
      (∀ kv ∈ l.2, ∃ u, kv.2 = [(u, "")]) ∧
      ∀ (search : String → String → Bool) (F ign : List String) (rf : Option String),
        find_resources_to_get search l.2 F rf ign
          = find_resources_to_get search l.2 F none ign := by
  intro m hm s hs l hl
  have hsing := (((parse_on_demand_syllabusE_ok resolve json rev mods h m hm).2 s hs).2 l hl).2
  exact ⟨hsing, fun search F ign rf => find_resources_rf_irrelevant search l.2 F ign rf hsing⟩

/-- Resolver returning two formats for the C10 witness. -/
def wit10Resolve : String → Except Unit (List (String × String)) :=
  fun _ => Except.ok [("mp4", "u1"), ("en.srt", "u2")]

/-- Concrete syllabus document for the C10 witness. -/
def wit10Json : List JsonModule := [⟨"ma", [⟨"sa", [⟨"la", "lecture", "va"⟩]⟩]⟩]

/-- The lecture mapping the parser produces for `wit10Json`. -/
def wit10Map : LectureMap := [("mp4", [("u1", "")]), ("en.srt", [("u2", "")])]

/-- Witness for C10 at a concrete parse: the first resource list is a
singleton with empty title, and a configured title filter does not change
the selector's output on the parser-produced mapping. -/
theorem C10_parser_singleton_resources_witness :
    (∃ u, ([("u1", "")] : List (String × String)) = [(u, "")]) ∧
    find_resources_to_get (fun _ _ => false) wit10Map ["all"] (some "xyz") []
      = find_resources_to_get (fun _ _ => false) wit10Map ["all"] none [] :=
  have H := C10_parser_singleton_resources wit10Resolve wit10Json false
    [("ma", [("sa", [("la", wit10Map)])])] rfl
    ("ma", [("sa", [("la", wit10Map)])]) (List.Mem.head _)
    ("sa", [("la", wit10Map)]) (List.Mem.head _)
    ("la", wit10Map) (List.Mem.head _)
  ⟨H.1 ("mp4", [("u1", "")]) (List.Mem.head _), H.2 (fun _ _ => false) ["all"] [] (some "xyz")⟩

/-! ## Claim C2 -/

/-- Claim C2: for a target of a surviving lecture (the step
`processLecture` folds over every selected resource), the orchestrator
performs the write — delegating to the downloader, or touching a zero-byte
file in placeholder mode — iff the file is absent or overwrite or resume
is set, recording the write time as `last_update`; otherwise it performs
no write and folds the existing file's modification time into
`last_update` with `max`. -/
theorem C2_target_write_policy (cfg : Cfg) (now : Int) (sec : String) (secnum lecnum : Nat)
    (lecname : String) (st : OState) (t : String × String × String) :
    (processTarget cfg now sec secnum lecnum lecname st t).last_update
        = (if fsExists st.fs (targetPath cfg.combined_section_lectures_nums sec secnum lecnum
                lecname t) = false ∨ cfg.overwrite = true ∨ cfg.resume = true
           then now
           else max st.last_update
                  (fsMtime st.fs (targetPath cfg.combined_section_lectures_nums sec secnum
                    lecnum lecname t))) ∧
    (processTarget cfg now sec secnum lecnum lecname st t).trace
        = st.trace ++
            (if fsExists st.fs (targetPath cfg.combined_section_lectures_nums sec secnum lecnum
                  lecname t) = false ∨ cfg.overwrite = true ∨ cfg.resume = true
             then [if cfg.skip_download then
                     Event.touch (targetPath cfg.combined_section_lectures_nums sec secnum
                       lecnum lecname t)
                   else Event.download t.2.1 (targetPath cfg.combined_section_lectures_nums sec
                       secnum lecnum lecname t) cfg.resume]
             else [Event.skipExisting (targetPath cfg.combined_section_lectures_nums sec secnum
                     lecnum lecname t)
                     (fsMtime st.fs (targetPath cfg.combined_section_lectures_nums sec secnum
                       lecnum lecname t))]) := by
  unfold processTarget
  cases hov : cfg.overwrite <;> cases hrs : cfg.resume <;> cases hsd : cfg.skip_download <;>
    cases hex : fsExists st.fs (targetPath cfg.combined_section_lectures_nums sec secnum lecnum
      lecname t) <;>
    simp [hov, hrs, hsd, hex]

/-! ## Helper lemmas: orchestrator traces -/

lemma fsExists_cons (q : String) (m : Int) (fs : List (String × Int)) (p : String) :
    fsExists ((q, m) :: fs) p = ((q == p) || fsExists fs p) := rfl

lemma processTarget_trace_or (cfg : Cfg) (now : Int) (sec : String) (secnum lecnum : Nat)
    (lecname : String) (st : OState) (t : String × String × String) :
    (processTarget cfg now sec secnum lecnum lecname st t).trace
        = st.trace ++ [Event.download t.2.1
            (targetPath cfg.combined_section_lectures_nums sec secnum lecnum lecname t)
            cfg.resume] ∨
    (processTarget cfg now sec secnum lecnum lecname st t).trace
        = st.trace ++ [Event.touch
            (targetPath cfg.combined_section_lectures_nums sec secnum lecnum lecname t)] ∨
    (processTarget cfg now sec secnum lecnum lecname st t).trace
        = st.trace ++ [Event.skipExisting
            (targetPath cfg.combined_section_lectures_nums sec secnum lecnum lecname t)
            (fsMtime st.fs
              (targetPath cfg.combined_section_lectures_nums sec secnum lecnum lecname t))] := by
  simp only [processTarget]
  split
  · split
    · left; rfl
    · right; left; rfl
  · right; right; rfl

lemma processTarget_fs_or (cfg : Cfg) (now : Int) (sec : String) (secnum lecnum : Nat)
    (lecname : String) (st : OState) (t : String × String × String) :
    (processTarget cfg now sec secnum lecnum lecname st t).fs = st.fs ∨
    (processTarget cfg now sec secnum lecnum lecname st t).fs
        = (targetPath cfg.combined_section_lectures_nums sec secnum lecnum lecname t, now)
            :: st.fs := by
  simp only [processTarget]
  split
  · split
    · right; rfl
    · right; rfl
  · left; rfl

lemma processTarget_mkdir_mem (cfg : Cfg) (now : Int) (sec : String) (secnum lecnum : Nat)
    (lecname : String) (st : OState) (t : String × String × String) (d : String) :
    Event.mkdir d ∈ (processTarget cfg now sec secnum lecnum lecname st t).trace ↔
      Event.mkdir d ∈ st.trace := by
  rcases processTarget_trace_or cfg now sec secnum lecnum lecname st t with he | he | he <;>
    rw [he] <;> simp

lemma processTarget_fsExists_mono (cfg : Cfg) (now : Int) (sec : String) (secnum lecnum : Nat)
    (lecname : String) (st : OState) (t : String × String × String) (p : String)
    (h : fsExists st.fs p = true) :
    fsExists (processTarget cfg now sec secnum lecnum lecname st t).fs p = true := by
  rcases processTarget_fs_or cfg now sec secnum lecnum lecname st t with he | he <;> rw [he]
  · exact h
  · rw [fsExists_cons]
    simp [h]

lemma processTargets_mkdir_mem (cfg : Cfg) (now : Int) (sec : String) (secnum lecnum : Nat)
    (lecname : String) (ts : List (String × String × String)) (st : OState) (d : String) :
    Event.mkdir d ∈
        (ts.foldl (fun s2 t => processTarget cfg now sec secnum lecnum lecname s2 t) st).trace ↔
      Event.mkdir d ∈ st.trace := by
  induction ts generalizing st with
  | nil => simp
  | cons t rest ih =>
    simp only [List.foldl_cons]
    rw [ih, processTarget_mkdir_mem]

lemma processTargets_fsExists_mono (cfg : Cfg) (now : Int) (sec : String) (secnum lecnum : Nat)
    (lecname : String) (ts : List (String × String × String)) (st : OState) (p : String)
    (h : fsExists st.fs p = true) :
    fsExists
        ((ts.foldl (fun s2 t => processTarget cfg now sec secnum lecnum lecname s2 t) st)).fs
        p = true := by
  induction ts generalizing st with
  | nil => simpa using h
  | cons t rest ih =>
    simp only [List.foldl_cons]
    exact ih _ (processTarget_fsExists_mono cfg now sec secnum lecnum lecname st t p h)

lemma processLecture_skip (cfg : Cfg) (now : Int) (sec : String) (secnum lecnum : Nat)
    (st : OState) (l : String × LectureMap)
    (hf : filterSkips cfg.search cfg.lecture_filter l.1 = true) :
    processLecture cfg now sec secnum lecnum st l = st := by
  unfold processLecture
  rw [if_pos hf]

lemma processLecture_mkdir_mem_of_exists (cfg : Cfg) (now : Int) (sec : String)
    (secnum lecnum : Nat) (st : OState) (l : String × LectureMap)
    (hex : fsExists st.fs sec = true) :
    Event.mkdir sec ∈ (processLecture cfg now sec secnum lecnum st l).trace ↔
      Event.mkdir sec ∈ st.trace := by
  by_cases hf : filterSkips cfg.search cfg.lecture_filter l.1 = true
  · rw [processLecture_skip cfg now sec secnum lecnum st l hf]
  · unfold processLecture
    rw [if_neg hf, if_pos hex]
    exact processTargets_mkdir_mem cfg now sec secnum lecnum l.1 _ st (d := sec)

lemma processLecture_fsExists_mono (cfg : Cfg) (now : Int) (sec : String)
    (secnum lecnum : Nat) (st : OState) (l : String × LectureMap) (p : String)
    (h : fsExists st.fs p = true) :
    fsExists (processLecture cfg now sec secnum lecnum st l).fs p = true := by
  by_cases hf : filterSkips cfg.search cfg.lecture_filter l.1 = true
  · rw [processLecture_skip cfg now sec secnum lecnum st l hf]
    exact h
  · unfold processLecture
    rw [if_neg hf]
    by_cases hex : fsExists st.fs sec = true
    · rw [if_pos hex]
      exact processTargets_fsExists_mono cfg now sec secnum lecnum l.1 _ st p h
    · rw [if_neg hex]
      apply processTargets_fsExists_mono
      simp only [fsExists, List.any_cons, Bool.or_eq_true]
      exact Or.inr (by simpa [fsExists] using h)

lemma processLecture_mkdir_of_not_exists (cfg : Cfg) (now : Int) (sec : String)
    (secnum lecnum : Nat) (st : OState) (l : String × LectureMap)
    (hf : ¬ filterSkips cfg.search cfg.lecture_filter l.1 = true)
    (hex : ¬ fsExists st.fs sec = true) :
    Event.mkdir sec ∈ (processLecture cfg now sec secnum lecnum st l).trace := by
  unfold processLecture
  rw [if_neg hf, if_neg hex]
  refine (processTargets_mkdir_mem cfg now sec secnum lecnum l.1 _ _ sec).mpr ?_
  simp

lemma processLectures_mkdir (cfg : Cfg) (now : Int) (sec : String) (secnum : Nat)
    (ls : List (String × LectureMap)) (n : Nat) (st : OState) :
    Event.mkdir sec ∈ (processLectures cfg now sec secnum n st ls).trace ↔
      Event.mkdir sec ∈ st.trace ∨
        ((∃ l ∈ ls, filterSkips cfg.search cfg.lecture_filter l.1 = false) ∧
          fsExists st.fs sec = false) := by
  induction ls generalizing n st with
  | nil => simp [processLectures]
  | cons l rest ih =>
    simp only [processLectures]
    rw [ih]
    by_cases hf : filterSkips cfg.search cfg.lecture_filter l.1 = true
    · rw [processLecture_skip cfg now sec secnum n st l hf]
      simp [hf]
    · have hf' : filterSkips cfg.search cfg.lecture_filter l.1 = false := by
        cases hfs : filterSkips cfg.search cfg.lecture_filter l.1
        · rfl
        · exact absurd hfs hf
      by_cases hex : fsExists st.fs sec = true
      · have h1 := processLecture_mkdir_mem_of_exists cfg now sec secnum n st l hex
        have h2 := processLecture_fsExists_mono cfg now sec secnum n st l sec hex
        simp [h1, h2, hex]
      · have h1 := processLecture_mkdir_of_not_exists cfg now sec secnum n st l hf hex
        have hexf : fsExists st.fs sec = false := by
          cases hfs : fsExists st.fs sec
          · rfl
          · exact absurd hfs hex
        simp [h1, hexf, hf']

/-! ## Claim C8 -/

/-- Options for the C8 counterexample: no filters, but an empty
accepted-format set, so no resource is ever selected. -/
def cex8Cfg : Cfg := ⟨[], [], false, false, false, none, none, none, false, false, fun _ _ => true⟩

/-- Claim C8, counterexample to the claim as stated: a surviving section
whose only surviving lecture selects zero resources (empty accepted-format
set) still gets its directory created — the `mkdir` happens on the first
surviving lecture, before resource selection, and no write occurs at all
(the trace is exactly the one `mkdir`). -/
theorem C8_counterexample :
    (processSection cex8Cfg 5 "" "c" ⟨[], -1, []⟩ 0
        ("s1", [("l1", [("mp4", [("u", "")])])])).trace
      = [Event.mkdir "c/01_s1"] := by decide


/-- Claim C8 (amended): in any run state, a section's directory gets a
`mkdir` iff the section survives the section filter, at least one of its
lectures survives the lecture filter, and the directory does not already
exist — creation happens at the first surviving lecture, before resource
selection, so it occurs whether or not any write follows; a section
failing the filter is never created. -/
theorem C8_section_dir_creation (cfg : Cfg) (now : Int) (path class_name : String)
    (st : OState) (secnum : Nat) (s : SectionT) :
    Event.mkdir (sectionDir cfg path class_name secnum s.1)
        ∈ (processSection cfg now path class_name st secnum s).trace ↔
      Event.mkdir (sectionDir cfg path class_name secnum s.1) ∈ st.trace ∨
        (filterSkips cfg.search cfg.section_filter s.1 = false ∧
         (∃ l ∈ s.2, filterSkips cfg.search cfg.lecture_filter l.1 = false) ∧
         fsExists st.fs (sectionDir cfg path class_name secnum s.1) = false) := by
  unfold processSection
  by_cases hs : filterSkips cfg.search cfg.section_filter s.1 = true
  · rw [if_pos hs]
    simp [hs]
  · rw [if_neg hs]
    have hs' : filterSkips cfg.search cfg.section_filter s.1 = false := by
      cases hv : filterSkips cfg.search cfg.section_filter s.1
      · rfl
      · exact absurd hv hs
    rw [processLectures_mkdir]
    simp [hs']

/-! ## Helper lemmas: the latest-activity invariant -/

lemma globalMaxActivity_append_one (now : Int) (tr : List Event) (e : Event) :
    globalMaxActivity now (tr ++ [e]) = actStep now (globalMaxActivity now tr) e := by
  simp [globalMaxActivity, List.foldl_append]

structure OInv (now : Int) (st : OState) : Prop where
  lu_eq : st.last_update = globalMaxActivity now st.trace
  lu_le : st.last_update ≤ now
  bounded : ∀ pm ∈ st.fs, pm.2 ≤ now

lemma fsMtime_le (now : Int) (fs : List (String × Int)) (p : String)
    (hb : ∀ pm ∈ fs, pm.2 ≤ now) (h0 : 0 ≤ now) : fsMtime fs p ≤ now := by
  unfold fsMtime
  cases hf : fs.find? (fun e => e.1 == p) with
  | none => exact h0
  | some e => exact hb e (List.mem_of_find?_eq_some hf)

lemma inv_processTarget (cfg : Cfg) (now : Int) (sec : String) (secnum lecnum : Nat)
    (lecname : String) (st : OState) (t : String × String × String) (h0 : 0 ≤ now)
    (h : OInv now st) : OInv now (processTarget cfg now sec secnum lecnum lecname st t) := by
  have hgle : globalMaxActivity now st.trace ≤ now := h.lu_eq ▸ h.lu_le
  simp only [processTarget]
  split
  · split
    all_goals
      refine ⟨?_, le_refl now, ?_⟩
      · rw [globalMaxActivity_append_one]
        simp only [actStep]
        exact (max_eq_right hgle).symm
      · intro pm hm
        rcases List.mem_cons.mp hm with rfl | hm
        · exact le_refl now
        · exact h.bounded pm hm
  · refine ⟨?_, ?_, h.bounded⟩
    · rw [globalMaxActivity_append_one]
      simp only [actStep]
      rw [h.lu_eq]
    · exact max_le h.lu_le (fsMtime_le now st.fs _ h.bounded h0)

lemma inv_processTargets (cfg : Cfg) (now : Int) (sec : String) (secnum lecnum : Nat)
    (lecname : String) (ts : List (String × String × String)) (st : OState) (h0 : 0 ≤ now)
    (h : OInv now st) :
    OInv now (ts.foldl (fun s2 t => processTarget cfg now sec secnum lecnum lecname s2 t) st) := by
  induction ts generalizing st with
  | nil => simpa using h
  | cons t rest ih =>
    simp only [List.foldl_cons]
    exact ih _ (inv_processTarget cfg now sec secnum lecnum lecname st t h0 h)

lemma inv_processLecture (cfg : Cfg) (now : Int) (sec : String) (secnum lecnum : Nat)
    (st : OState) (l : String × LectureMap) (h0 : 0 ≤ now) (h : OInv now st) :
    OInv now (processLecture cfg now sec secnum lecnum st l) := by
  simp only [processLecture]
  split
  · exact h
  · apply inv_processTargets cfg now sec secnum lecnum l.1 _ _ h0
    split
    · exact h
    · refine ⟨?_, h.lu_le, ?_⟩
      · rw [globalMaxActivity_append_one]
        simp only [actStep]
        exact h.lu_eq
      · intro pm hm
        rcases List.mem_cons.mp hm with rfl | hm
        · exact le_refl now
        · exact h.bounded pm hm

lemma inv_processLectures (cfg : Cfg) (now : Int) (sec : String) (secnum : Nat)
    (ls : List (String × LectureMap)) (n : Nat) (st : OState) (h0 : 0 ≤ now)
    (h : OInv now st) : OInv now (processLectures cfg now sec secnum n st ls) := by
  induction ls generalizing n st with
  | nil => simpa [processLectures] using h
  | cons l rest ih =>
    simp only [processLectures]
    exact ih (n + 1) _ (inv_processLecture cfg now sec secnum n st l h0 h)

lemma inv_processSection (cfg : Cfg) (now : Int) (path class_name : String) (st : OState)
    (secnum : Nat) (s : SectionT) (h0 : 0 ≤ now) (h : OInv now st) :
    OInv now (processSection cfg now path class_name st secnum s) := by
  simp only [processSection]
  split
  · exact h
  · exact inv_processLectures cfg now _ secnum s.2 0 st h0 h

lemma inv_processSections (cfg : Cfg) (now : Int) (path class_name : String)
    (ss : List SectionT) (n : Nat) (st : OState) (h0 : 0 ≤ now) (h : OInv now st) :
    OInv now (processSections cfg now path class_name n st ss) := by
  induction ss generalizing n st with
  | nil => simpa [processSections] using h
  | cons s rest ih =>
    simp only [processSections]
    exact ih (n + 1) _ (inv_processSection cfg now path class_name st n s h0 h)

lemma download_lectures_spec (cfg : Cfg) (class_name : String) (sections : List SectionT)
    (path : String) (now : Int) (fs0 : List (String × Int)) (h0 : 0 ≤ now)
    (hb : ∀ pm ∈ fs0, pm.2 ≤ now) :
    (download_lectures cfg class_name sections path now fs0).2
        = is_course_complete now
            (globalMaxActivity now
              (download_lectures cfg class_name sections path now fs0).1.trace) ∧
    ∀ pm ∈ (download_lectures cfg class_name sections path now fs0).1.fs, pm.2 ≤ now := by
  have hinv : OInv now (processSections cfg now path class_name 0 ⟨fs0, -1, []⟩ sections) :=
    inv_processSections cfg now path class_name sections 0 ⟨fs0, -1, []⟩ h0
      ⟨rfl, le_trans (by norm_num) h0, hb⟩
  simp only [download_lectures]
  exact ⟨by rw [hinv.lu_eq], hinv.bounded⟩

lemma downloadModules_spec (cfg : Cfg) (now : Int) (path class_name : String)
    (ms : List ModuleT) (h0 : 0 ≤ now) :
    ∀ (idx : Nat) (acc : Bool × List (String × Int) × List (List Event)),
      acc.1 = acc.2.2.all (fun tr => is_course_complete now (globalMaxActivity now tr)) →
      (∀ pm ∈ acc.2.1, pm.2 ≤ now) →
      ((downloadModules cfg now path class_name idx acc ms).1
          = (downloadModules cfg now path class_name idx acc ms).2.2.all
              (fun tr => is_course_complete now (globalMaxActivity now tr)) ∧
        ∀ pm ∈ (downloadModules cfg now path class_name idx acc ms).2.1, pm.2 ≤ now) := by
  induction ms with
  | nil =>
    intro idx acc h1 h2
    exact ⟨h1, h2⟩
  | cons m rest ih =>
    intro idx acc h1 h2
    simp only [downloadModules]
    apply ih
    · have hr := download_lectures_spec cfg (format02 (idx + 1) ++ "_" ++ m.1) m.2
        (pathJoin path class_name) now acc.2.1 h0 h2
      rw [h1, hr.1, List.all_append]
      simp
    · exact (download_lectures_spec cfg (format02 (idx + 1) ++ "_" ++ m.1) m.2
        (pathJoin path class_name) now acc.2.1 h0 h2).2

/-! ## Claim C4 -/

/-- Options for the C4 counterexample: a section filter that only module
A's section passes. -/
def cex4Cfg : Cfg :=
  ⟨["mp4"], [], false, false, false, some "week1", none, none, false, false, fun p t => p == t⟩

/-- Pre-existing file for the C4 counterexample: module A's one target,
last modified at time 100. -/
def cex4Fs : List (String × Int) := [("out/course/01_mA/01_week1/01_lec1.mp4", 100)]

/-- Two modules for the C4 counterexample: module B's only section fails
the section filter, so module B observes no targets at all. -/
def cex4Mods : List ModuleT :=
  [("mA", [("week1", [("lec1", [("mp4", [("u1", "")])])])]),
   ("mB", [("other", [("lec2", [("mp4", [("u2", "")])])])])]


/-- Claim C4, counterexample to the claim as stated: the run returns
`false` (module B's `download_lectures` call sees no target, keeps the
sentinel `-1` and reports incomplete, and the results are and-ed), while
the Completion Estimator applied once to the maximum last-activity over
all targets of the whole run (the old mtime 100) says complete. -/
theorem C4_counterexample :
    (download_on_demand_class cex4Cfg 1000000000 "out" "course" cex4Mods cex4Fs).1 = false ∧
    is_course_complete 1000000000
      (globalMaxActivity 1000000000
        ((download_on_demand_class cex4Cfg 1000000000 "out" "course" cex4Mods cex4Fs).2.2.foldl
          (fun a b => a ++ b) [])) = true := by decide

/-- Claim C4 (amended): the boolean `download_on_demand_class` returns is
the conjunction over modules of the Completion Estimator applied to that
module's own maximum-last-activity reduction (each `download_lectures`
call reduces over its module's targets only and the results are and-ed),
provided the clock is non-negative and no pre-existing file is modified in
the future. -/
theorem C4_module_conjunction (cfg : Cfg) (now : Int) (path class_name : String)
    (modules : List ModuleT) (fs0 : List (String × Int)) (h0 : 0 ≤ now)
    (hb : ∀ pm ∈ fs0, pm.2 ≤ now) :
    (download_on_demand_class cfg now path class_name modules fs0).1
      = (download_on_demand_class cfg now path class_name modules fs0).2.2.all
          (fun tr => is_course_complete now (globalMaxActivity now tr)) :=
  (downloadModules_spec cfg now path class_name modules h0 0 (true, fs0, []) rfl hb).1

/-- Options for the C4 witness. -/
def wit4Cfg : Cfg :=
  ⟨["mp4"], [], false, false, false, none, none, none, false, false, fun _ _ => true⟩

/-- A one-module tree for the C4 witness. -/
def wit4Mods : List ModuleT := [("m", [("s", [("l", [("mp4", [("u", "")])])])])]

/-- Witness for C4's amended theorem at a concrete run. -/
theorem C4_module_conjunction_witness :
    (download_on_demand_class wit4Cfg 10 "o" "c" wit4Mods []).1
      = (download_on_demand_class wit4Cfg 10 "o" "c" wit4Mods []).2.2.all
          (fun tr => is_course_complete 10 (globalMaxActivity 10 tr)) :=
  C4_module_conjunction wit4Cfg 10 "o" "c" wit4Mods [] (by norm_num) (by simp)
